import Mathlib

/-!
Shallow embedding of the domain kernel of the `talentgrid` repository
(`src/apps/api/src/domain/...`): the Result/Either/Maybe algebra, the
domain-error taxonomy, the Value Object equality/hashing base class, the
Entity/AggregateRoot lifecycle, the Specification algebra and builder,
the `UuidId` value object, and the in-process domain event bus.

JavaScript semantics are modelled explicitly where they matter:
exceptions become `Except`, 32-bit integer coercion (`x & x`, `x << 5`)
becomes arithmetic modulo 2^32 on `Int`, `Array.prototype.join` and
`JSON.stringify` are embedded as executable functions, and mutable
arrays (for the aliasing claim about `getUncommittedEvents`) are
modelled with an explicit store of arrays addressed by reference.
-/

namespace TG

/-- A JavaScript `Error` object, reduced to the `message` field that the
embedded code reads (`Result.combine` joins messages; comparisons in the
claims are about messages). -/
structure JsError where
  message : String
deriving DecidableEq, Repr

/-- `Array.prototype.join(sep)` of JavaScript on a list of strings. -/
def jsJoin (sep : String) : List String → String
  | [] => ""
  | [x] => x
  | x :: xs => x ++ sep ++ jsJoin sep xs

/-- The `Result<T, E>` class of `src/unnamed/part_013` (domain/types):
a tagged union with exactly the two states `success` (flag `_isSuccess =
true`, `_value` set) and `failure` (flag false, `_error` set). -/
inductive Result (T : Type) (E : Type) where
  | success (value : T)
  | failure (error : E)
deriving DecidableEq, Repr

namespace Result

/-- `get isSuccess()`. -/
def isSuccess : Result T E → Bool
  | .success _ => true
  | .failure _ => false

/-- `get isFailure()` (`!this._isSuccess`). -/
def isFailure : Result T E → Bool
  | .success _ => false
  | .failure _ => true

/-- `Result.map(fn)`: a failure is passed through as a failure; on a
success the body runs `fn` inside `try`/`catch`, and a thrown value
(the `Except.error` arm of `fn`) is converted into `Result.failure`. -/
def map (r : Result T E) (fn : T → Except E U) : Result U E :=
  match r with
  | .failure e => .failure e
  | .success v =>
    match fn v with
    | .ok u => .success u
    | .error e => .failure e

/-- `Result.flatMap(fn)`: failure short-circuits unchanged, success
applies `fn` directly (no `try`/`catch` in the source). -/
def flatMap (r : Result T E) (fn : T → Result U E) : Result U E :=
  match r with
  | .failure e => .failure e
  | .success v => fn v

/-- `Result.combine(results)`: collects the errors of all failing
elements in order; if any exist, fails with a single `Error` whose
message is the `', '`-join of all collected messages, otherwise succeeds
with the list of all success values (`results.map(r => r.value!)`). -/
def combine (results : List (Result T JsError)) : Result (List T) JsError :=
  let errors := results.foldl
    (fun acc r => match r with
      | .failure e => acc ++ [e]
      | .success _ => acc) []
  if errors.length > 0 then
    .failure ⟨jsJoin ", " (errors.map JsError.message)⟩
  else
    .success (results.filterMap fun r =>
      match r with
      | .success v => some v
      | .failure _ => none)

/-- `Result.getOrElse(defaultValue)`. -/
def getOrElse (r : Result T E) (defaultValue : T) : T :=
  match r with
  | .success v => v
  | .failure _ => defaultValue

end Result

/-- The `Either<L, R>` class of `src/unnamed/part_013`: tagged union
with states `left` (`_isLeft = true`) and `right`. -/
inductive Either (L : Type) (R : Type) where
  | left (value : L)
  | right (value : R)
deriving DecidableEq, Repr

namespace Either

/-- `Either.map(fn)`: a left is passed through; on a right the body runs
`fn` inside `try`/`catch` and a thrown value becomes `Either.left`. -/
def map (e : Either L R) (fn : R → Except L U) : Either L U :=
  match e with
  | .left l => .left l
  | .right r =>
    match fn r with
    | .ok u => .right u
    | .error err => .left err

end Either

/-- The `Maybe<T>` class of `src/unnamed/part_013`: the private `_value`
field is either a value (`some`) or `undefined` (`none`). -/
inductive Maybe (T : Type) where
  | some (value : T)
  | none
deriving DecidableEq, Repr

namespace Maybe

/-- `Maybe.map(fn)`: `none` is passed through; on a `some` the body runs
`fn` inside `try`/`catch`, and any thrown value is swallowed, producing
`none` (the catch arm discards the exception). -/
def map (m : Maybe T) (fn : T → Except E U) : Maybe U :=
  match m with
  | .none => .none
  | .some v =>
    match fn v with
    | .ok u => .some u
    | .error _ => .none

end Maybe

/-!  Domain-error taxonomy (`src/unnamed/part_013`, bottom half).  Each
concrete subclass of the abstract `DomainError` base becomes one
constructor carrying its constructor arguments.  The `base` constructor
models a direct `new DomainError(message)` instantiation of the abstract
base class, as performed (against the class's own `abstract` marking) by
`SoftDeletableAggregateRoot.delete`/`restore` and
`OptimisticLockAggregateRoot.checkVersion` in
`src/apps/api/tsup.config.ts`; at runtime such an object carries only a
message and its `code` field is never assigned (undefined). -/
inductive DomainErrorValue where
  | base (message : String)
  | validation (message : String) (field : String)
  | entityNotFound (entityType : String) (id : String)
  | businessRuleViolation (rule : String)
  | operationNotAllowed (operation : String) (reason : String)
  | concurrency (entityType : String) (id : String)
      (expectedVersion : Int) (actualVersion : Int)
deriving DecidableEq, Repr

namespace DomainErrorValue

/-- The `readonly code` field of each subclass; `none` models the
`undefined` value of `code` on a directly instantiated abstract base. -/
def code : DomainErrorValue → Option String
  | .base _ => Option.none
  | .validation _ _ => Option.some "VALIDATION_ERROR"
  | .entityNotFound _ _ => Option.some "ENTITY_NOT_FOUND"
  | .businessRuleViolation _ => Option.some "BUSINESS_RULE_VIOLATION"
  | .operationNotAllowed _ _ => Option.some "OPERATION_NOT_ALLOWED"
  | .concurrency _ _ _ _ => Option.some "CONCURRENCY_ERROR"

/-- Whether the error is an instance of the `ConcurrencyError` subclass. -/
def isConcurrencyError : DomainErrorValue → Bool
  | .concurrency _ _ _ _ => true
  | _ => false

end DomainErrorValue

/-!  `UuidId` (`src/apps/api/src/domain/value-objects/id.ts`).  The
`UUID_REGEX` pattern
`/^[0-9a-f]{8}-[0-9a-f]{4}-[1-5][0-9a-f]{3}-[89ab][0-9a-f]{3}-[0-9a-f]{12}$/i`
is transcribed positionally: 36 characters, hyphens at indices
8/13/18/23, a version digit in `1`-`5` at index 14, a variant character
in `[89ab]` (case-insensitively, i.e. also `A`/`B`) at index 19, and
case-insensitive hex digits everywhere else. -/

/-- A hex digit under the regex's `i` flag: `[0-9a-fA-F]`. -/
def isHexDigitCI (c : Char) : Bool :=
  ('0' ≤ c && c ≤ '9') || ('a' ≤ c && c ≤ 'f') || ('A' ≤ c && c ≤ 'F')

/-- Positional character class of `UUID_REGEX` at index `i`. -/
def uuidCharOk (i : Nat) (c : Char) : Bool :=
  if i == 8 || i == 13 || i == 18 || i == 23 then c == '-'
  else if i == 14 then '1' ≤ c && c ≤ '5'
  else if i == 19 then
    c == '8' || c == '9' || c == 'a' || c == 'b' || c == 'A' || c == 'B'
  else isHexDigitCI c

/-- `UuidId.UUID_REGEX.test(value)`. -/
def uuidRegexTest (value : String) : Bool :=
  value.length == 36 &&
    (List.range 36).all fun i => uuidCharOk i (value.data.getD i ' ')

/-- `new UuidId(value)`: the base `Id` constructor stores the value and
runs `validate()`, which throws a `ValidationError` if the value is
falsy (empty string) or fails the regex test; on success the constructed
id's `value` is the argument unchanged. -/
def UuidId.make (value : String) : Except DomainErrorValue String :=
  if value == "" then
    .error (.validation "UUID must be a non-empty string" "id")
  else if !uuidRegexTest value then
    .error (.validation "Invalid UUID format" "id")
  else
    .ok value

/-- Written from the claim's words, not the source: the RFC-4122
version-4 pattern — like `UUID_REGEX` but requiring the version nibble
at index 14 to be exactly `4`. -/
def specV4UuidPattern (value : String) : Bool :=
  value.length == 36 &&
    (List.range 36).all fun i =>
      let c := value.data.getD i ' '
      if i == 14 then c == '4' else uuidCharOk i c

/-!  Specification algebra (`src/apps/api/tsup.config.ts`, second
concatenated file).  Each `Specification` subclass becomes a
constructor; leaf specifications carrying their own evaluation logic
(`PropertySpecification`, `NullSpecification`, ..., and
`FunctionSpecification`) are represented by `func`, a leaf holding its
compiled `isSatisfiedBy` predicate over the candidate type. -/
inductive Spec (T : Type) where
  | andS (left : Spec T) (right : Spec T)
  | orS (left : Spec T) (right : Spec T)
  | notS (spec : Spec T)
  | trueS
  | falseS
  | func (predicate : T → Bool)

namespace Spec

/-- `isSatisfiedBy(candidate)` of each `Specification` subclass. -/
def isSatisfiedBy : Spec T → T → Bool
  | .andS l r, c => l.isSatisfiedBy c && r.isSatisfiedBy c
  | .orS l r, c => l.isSatisfiedBy c || r.isSatisfiedBy c
  | .notS s, c => !s.isSatisfiedBy c
  | .trueS, _ => true
  | .falseS, _ => false
  | .func p, c => p c

end Spec

namespace SpecificationBuilder

/-- `SpecificationBuilder.build()`: empty list yields
`TrueSpecification`, a single element is returned as is, otherwise the
list is reduced left-to-right with `.and(...)`
(`reduce((acc, spec) => acc.and(spec))`). -/
def build : List (Spec T) → Spec T
  | [] => .trueS
  | [s] => s
  | s :: rest => rest.foldl Spec.andS s

/-- `SpecificationBuilder.buildOr()`: as `build` but reducing with
`.or(...)`. -/
def buildOr : List (Spec T) → Spec T
  | [] => .trueS
  | [s] => s
  | s :: rest => rest.foldl Spec.orS s

end SpecificationBuilder

/-!  `DomainEvent` (`src/apps/api/src/domain/events/index.ts`): an
immutable record; `eventId` is generated from `UuidId.generate()`
(randomness externalised as a constructor argument), `eventType`
defaults to the runtime class name.  `ctorName` models
`event.constructor.name`, which the bus uses as dispatch key. -/
structure DomainEvent where
  eventId : String
  occurredOn : Int
  eventType : String
  aggregateId : String
  version : Int
  ctorName : String
deriving DecidableEq, Repr

/-!  `Entity` / `AggregateRoot`
(`src/apps/api/tsup.config.ts`, concatenated files
`entities/entity.ts` and `entities/aggregate-root.ts`).  The mutable
instance fields become a state record; `Date` timestamps are epoch
milliseconds; the mutable `_domainEvents` array is held by reference
into an explicit array store (see `ArrayHeap`) so that the copying
behaviour of `getUncommittedEvents` (`return [...this._domainEvents]`)
is observable. -/

/-- The store of allocated JavaScript arrays of domain events, addressed
by allocation index (a reference). -/
structure ArrayHeap where
  store : List (List DomainEvent)
deriving Repr

namespace ArrayHeap

/-- Read the array behind reference `r`. -/
def read (h : ArrayHeap) (r : Nat) : List DomainEvent :=
  h.store.getD r []

/-- Allocate a fresh array holding `xs`; returns the new heap and the
fresh reference. -/
def alloc (h : ArrayHeap) (xs : List DomainEvent) : ArrayHeap × Nat :=
  (⟨h.store ++ [xs]⟩, h.store.length)

/-- Mutate the array behind reference `r` in place with `f` (models
`push`, `splice`, `length = 0`, or any other in-place array change). -/
def mutate (h : ArrayHeap) (r : Nat) (f : List DomainEvent → List DomainEvent) :
    ArrayHeap :=
  ⟨h.store.set r (f (h.read r))⟩

/-- A reference is valid when it addresses an allocated array. -/
def valid (h : ArrayHeap) (r : Nat) : Prop :=
  r < h.store.length

end ArrayHeap

/-- State of an `AggregateRoot<TId>` instance: the `Entity` fields
(`_id`, `_createdAt`, `_updatedAt`), the `_version` counter, and the
reference to its private `_domainEvents` array in the store. -/
structure AggregateRoot (TId : Type) where
  id : TId
  createdAt : Int
  updatedAt : Int
  version : Int
  domainEventsRef : Nat
deriving Repr

namespace AggregateRoot

/-- `Entity.touch()`: refreshes `_updatedAt` to the current time. -/
def touch (a : AggregateRoot TId) (now : Int) : AggregateRoot TId :=
  { a with updatedAt := now }

/-- `incrementVersion()`: `this._version++` then `this.touch()`. -/
def incrementVersion (a : AggregateRoot TId) (now : Int) : AggregateRoot TId :=
  ({ a with version := a.version + 1 } : AggregateRoot TId).touch now

/-- `getUncommittedEvents()`: `return [...this._domainEvents]` — a
fresh array allocated with a copy of the buffer's current contents. -/
def getUncommittedEvents (h : ArrayHeap) (a : AggregateRoot TId) :
    ArrayHeap × Nat :=
  h.alloc (h.read a.domainEventsRef)

/-- `markEventsAsCommitted()`: `this._domainEvents.length = 0` — clears
the buffer in place in one step. -/
def markEventsAsCommitted (h : ArrayHeap) (a : AggregateRoot TId) : ArrayHeap :=
  h.mutate a.domainEventsRef (fun _ => [])

/-- `hasUncommittedEvents()`: `this._domainEvents.length > 0`. -/
def hasUncommittedEvents (h : ArrayHeap) (a : AggregateRoot TId) : Bool :=
  (h.read a.domainEventsRef).length > 0

/-- `getUncommittedEventsCount()`: `this._domainEvents.length`. -/
def getUncommittedEventsCount (h : ArrayHeap) (a : AggregateRoot TId) : Nat :=
  (h.read a.domainEventsRef).length

/-- `OptimisticLockAggregateRoot.checkVersion(expectedVersion)`: throws
`new DomainError('Concurrency conflict. Expected version E, but got A')`
when `this._version !== expectedVersion`, otherwise returns normally
without touching any field. -/
def checkVersion (a : AggregateRoot TId) (expectedVersion : Int) :
    Except DomainErrorValue Unit :=
  if a.version ≠ expectedVersion then
    .error (.base ("Concurrency conflict. Expected version " ++
      toString expectedVersion ++ ", but got " ++ toString a.version))
  else
    .ok ()

end AggregateRoot

/-!  `DomainEventBus` (`src/apps/api/src/domain/events/index.ts`).
A handler is its `handle` function; a call either returns (`.ok`) or
throws (`.error`).  The bus's `handlers` map keyed by event class name
is an association list preserving, per key, registration order. -/

/-- A `DomainEventHandler`'s `handle` method, with thrown values of
type `ε`. -/
structure Handler (ε : Type) where
  handle : DomainEvent → Except ε Unit

/-- The `handlers: Map<string, DomainEventHandler[]>` field. -/
def Bus (ε : Type) : Type := List (String × List (Handler ε))

namespace DomainEventBus

/-- `this.handlers.get(name) || []`. -/
def handlersFor (bus : Bus ε) (name : String) : List (Handler ε) :=
  (bus.lookup name).getD []

/-- `subscribe(eventType, handler)`: pushes the handler onto the list
for `eventType.name`, creating the entry if absent. -/
def subscribe (bus : Bus ε) (name : String) (h : Handler ε) : Bus ε :=
  match bus with
  | [] => [(name, [h])]
  | (k, hs) :: rest =>
    if k == name then (k, hs ++ [h]) :: rest
    else (k, hs) :: subscribe rest name h

/-- The `try { await handler.handle(event) } catch (error) {
console.error(...) }` body of the publish loop: a thrown value is
caught (and logged), never re-raised. -/
def handleWithCatch (h : Handler ε) (event : DomainEvent) : Except ε Unit :=
  match h.handle event with
  | .ok u => .ok u
  | .error _e => .ok ()

/-- The sequential `for (const handler of handlers)` loop of `publish`:
each handler is invoked in list order inside the try/catch; an
exception escaping the loop body would abort the loop (the `Except`
layer), and the returned trace lists the handlers that were invoked, in
invocation order. -/
def publishLoop (event : DomainEvent) :
    List (Handler ε) → Except ε (List (Handler ε))
  | [] => .ok []
  | h :: rest => do
    let _ ← handleWithCatch h event
    let invoked ← publishLoop event rest
    pure (h :: invoked)

/-- `publish(event)`: looks up the handlers registered under
`event.constructor.name` and runs the loop. -/
def publish (bus : Bus ε) (event : DomainEvent) :
    Except ε (List (Handler ε)) :=
  publishLoop event (handlersFor bus event.ctorName)

end DomainEventBus

/-!  `PrimitiveValueObject` (`src/unnamed/part_012`,
`value-objects/value-object.ts`).  The `unknown[]` list returned by
`getPrimitiveValues()` holds JavaScript values: primitives, `Date`s,
nested arrays and plain objects.  These are embedded as the mutual
inductive family `Prim`/`PrimList`/`FieldList` (lists are their own
inductives so that every function below is structurally recursive and
kernel-evaluable).  A `Date` is represented by the ISO string its
`toJSON()` produces, which determines both its (empty) own-key set and
its `JSON.stringify` image.  Modelling assumptions, noted where used:
object literals have pairwise-distinct keys (as JavaScript objects do),
numbers are integers (no NaN or fractional part, so `Math.floor` is the
identity and `===` on numbers is ordinary equality), and distinct
reference values (arrays, objects, dates) are distinct instances, so
`===` between them is `false`. -/

mutual
inductive Prim where
  | null
  | undef
  | str (s : String)
  | num (n : Int)
  | bool (b : Bool)
  | date (iso : String)
  | arr (xs : PrimList)
  | obj (fs : FieldList)

inductive PrimList where
  | nil
  | cons (head : Prim) (tail : PrimList)

inductive FieldList where
  | nil
  | cons (key : String) (value : Prim) (tail : FieldList)
end

namespace PrimList

/-- Length of an embedded JavaScript array. -/
def length : PrimList → Nat
  | .nil => 0
  | .cons _ t => 1 + t.length

end PrimList

namespace FieldList

/-- Number of own keys of an embedded plain object. -/
def length : FieldList → Nat
  | .nil => 0
  | .cons _ _ t => 1 + t.length

/-- The key list (`Object.keys`) of an embedded plain object. -/
def keys : FieldList → List String
  | .nil => []
  | .cons k _ t => k :: t.keys

/-- Property lookup `obj[key]`: first matching key (keys are assumed
distinct, as in a JavaScript object). -/
def lookup (k : String) : FieldList → Option Prim
  | .nil => Option.none
  | .cons k' v t => if k == k' then Option.some v else t.lookup k

end FieldList

/-- `typeof value === 'object'` (true for `null`, dates, arrays and
plain objects). -/
def typeofIsObject : Prim → Bool
  | .null => true
  | .date _ => true
  | .arr _ => true
  | .obj _ => true
  | _ => false

/-- `value === null`. -/
def isNullPrim : Prim → Bool
  | .null => true
  | _ => false

/-- `value === undefined` check used when serialising object fields. -/
def isUndefPrim : Prim → Bool
  | .undef => true
  | _ => false

/-- JavaScript strict equality `===` as it is reachable in the
comparison code: primitives compare by value, while reference values
(arrays, objects, dates) are distinct instances and never `===`. -/
def strictEq : Prim → Prim → Bool
  | .null, .null => true
  | .undef, .undef => true
  | .str s, .str t => s == t
  | .num n, .num m => n == m
  | .bool a, .bool b => a == b
  | _, _ => false

/-- `Object.keys(value).length` for the values on which the comparison
code calls it (dates have no own enumerable keys; array keys are the
indices). -/
def jsKeysLen : Prim → Nat
  | .obj fs => fs.length
  | .arr xs => xs.length
  | _ => 0

/-- Index an embedded array (`xs[i]`, `undefined` out of range). -/
def primListGetD : PrimList → Nat → Prim
  | .nil, _ => .undef
  | .cons x _, 0 => x
  | .cons _ t, Nat.succ i => primListGetD t i

/-- Property read `value[key]` as the comparison code performs it:
objects look the key up, arrays accept canonical numeric index strings,
everything else yields `undefined`. -/
def jsIndex (v : Prim) (k : String) : Prim :=
  match v with
  | .obj fs => (fs.lookup k).getD .undef
  | .arr xs =>
    match k.toNat? with
    | Option.some i => if toString i == k then primListGetD xs i else .undef
    | Option.none => .undef
  | _ => .undef

mutual
/-- The element-comparison logic shared verbatim by
`PrimitiveValueObject.equals`, `arraysEqual` and `objectsEqual`: two
arrays compare with `arraysEqual`, two non-null values of `typeof
'object'` compare with `objectsEqual` (key-count check plus per-key
comparison of the left side's keys), everything else with `===`. -/
def primEq : Prim → Prim → Bool
  | .null, w => strictEq .null w
  | .undef, w => strictEq .undef w
  | .str s, w => strictEq (.str s) w
  | .num n, w => strictEq (.num n) w
  | .bool b, w => strictEq (.bool b) w
  | .date iso, w =>
    if typeofIsObject w && !isNullPrim w then
      jsKeysLen (.date iso) == jsKeysLen w
    else strictEq (.date iso) w
  | .arr xs, w =>
    match w with
    | .arr ys => xs.length == ys.length && pairwiseEq xs ys
    | _ =>
      if typeofIsObject w && !isNullPrim w then
        jsKeysLen (.arr xs) == jsKeysLen w && arrKeysEq 0 xs w
      else strictEq (.arr xs) w
  | .obj fs, w =>
    if typeofIsObject w && !isNullPrim w then
      jsKeysLen (.obj fs) == jsKeysLen w && fieldsEq fs w
    else strictEq (.obj fs) w
termination_by structural v _w => v

/-- `arraysEqual`'s element loop (`arr1.every((item, i) => ... arr2[i]
...)`), after its length guard; an out-of-range read is `undefined`. -/
def pairwiseEq : PrimList → PrimList → Bool
  | .nil, _ => true
  | .cons x xs, .nil => primEq x .undef && pairwiseEq xs .nil
  | .cons x xs, .cons y ys => primEq x y && pairwiseEq xs ys
termination_by structural xs _ys => xs

/-- `objectsEqual`'s key loop when the left operand is an array (its
`Object.keys` are the canonical index strings `"0"`, `"1"`, ...). -/
def arrKeysEq (i : Nat) : PrimList → Prim → Bool
  | .nil, _ => true
  | .cons x xs, w => primEq x (jsIndex w (toString i)) && arrKeysEq (i + 1) xs w
termination_by structural xs _w => xs

/-- `objectsEqual`'s key loop when the left operand is a plain object:
for every key of the left side, compare its value with the right side's
value under the same key. -/
def fieldsEq : FieldList → Prim → Bool
  | .nil, _ => true
  | .cons k x rest, w => primEq x (jsIndex w k) && fieldsEq rest w
termination_by structural fs _w => fs
end

/-- UTF-16 code units of one character, as JavaScript's
`split('')`/`charCodeAt` see them. -/
def utf16Units (c : Char) : List Nat :=
  if c.toNat < 0x10000 then [c.toNat]
  else
    let v := c.toNat - 0x10000
    [0xD800 + v / 0x400, 0xDC00 + v % 0x400]

/-- All UTF-16 code units of a string. -/
def jsCodeUnits (s : String) : List Nat :=
  (s.data.map utf16Units).flatten

/-- Signed 32-bit wraparound, the effect of JavaScript's `x & x` (and
of `<<` on its operand). -/
def toInt32 (n : Int) : Int :=
  (n + 2 ^ 31) % 2 ^ 32 - 2 ^ 31

/-- One rolling-hash step: `hash = (hash << 5) - hash + h; hash = hash
& hash` (the shift wraps its 32-bit operand, the masking wraps the
result). -/
def hashStep (hash h : Int) : Int :=
  toInt32 (toInt32 (hash * 2 ^ 5) - hash + h)

/-- `hashString(str)`: the rolling hash folded over the string's UTF-16
code units, starting from 0. -/
def hashString (s : String) : Int :=
  (jsCodeUnits s).foldl (fun hash cu => hashStep hash (Int.ofNat cu)) 0

/-- Lowercase hex digit, for JSON `\u00XX` escapes. -/
def hexDigit (n : Nat) : Char :=
  if n < 10 then Char.ofNat ('0'.toNat + n) else Char.ofNat ('a'.toNat + n - 10)

/-- JSON escaping of one character, as `JSON.stringify` performs it. -/
def jsonEscapeChar (c : Char) : String :=
  if c = '"' then "\\\""
  else if c = '\\' then "\\\\"
  else if c = '\n' then "\\n"
  else if c = '\r' then "\\r"
  else if c = '\t' then "\\t"
  else if c.toNat == 8 then "\\b"
  else if c.toNat == 12 then "\\f"
  else if c.toNat < 0x20 then
    "\\u00" ++ String.mk [hexDigit (c.toNat / 16), hexDigit (c.toNat % 16)]
  else String.mk [c]

/-- A JSON string literal for `s`. -/
def jsonQuote (s : String) : String :=
  "\"" ++ String.join (s.data.map jsonEscapeChar) ++ "\""

/-- Whether any remaining field survives serialisation (controls the
separating comma). -/
def fieldsHaveDefined : FieldList → Bool
  | .nil => false
  | .cons _ v rest => !isUndefPrim v || fieldsHaveDefined rest

mutual
/-- `JSON.stringify(value)` on the embedded values (a `Date` serialises
via its `toJSON()` ISO string; `undefined` only ever reaches this
function as an array element, where it serialises as `null`). -/
def jsonStringify : Prim → String
  | .null => "null"
  | .undef => "null"
  | .str s => jsonQuote s
  | .num n => toString n
  | .bool b => if b then "true" else "false"
  | .date iso => jsonQuote iso
  | .arr xs => "[" ++ jsonList xs ++ "]"
  | .obj fs => "\x7b" ++ jsonFields fs ++ "\x7d"
termination_by structural v => v

/-- Comma-joined serialisation of array elements. -/
def jsonList : PrimList → String
  | .nil => ""
  | .cons x .nil => jsonStringify x
  | .cons x xs => jsonStringify x ++ "," ++ jsonList xs
termination_by structural xs => xs

/-- Comma-joined serialisation of object fields; fields whose value is
`undefined` are omitted, as `JSON.stringify` omits them. -/
def jsonFields : FieldList → String
  | .nil => ""
  | .cons k v rest =>
    if isUndefPrim v then jsonFields rest
    else
      jsonQuote k ++ ":" ++ jsonStringify v ++
        (if fieldsHaveDefined rest then "," else "") ++ jsonFields rest
termination_by structural fs => fs
end

mutual
/-- `hashValue(value)`: `null`/`undefined` hash to 0, strings by the
rolling string hash, numbers by `Math.floor` (the identity on the
integer model), booleans to 1/0, arrays recursively via
`calculateHash`, and any remaining `typeof 'object'` value (plain
objects and dates) via `hashString(JSON.stringify(value))`. -/
def hashValue : Prim → Int
  | .null => 0
  | .undef => 0
  | .str s => hashString s
  | .num n => n
  | .bool b => if b then 1 else 0
  | .arr xs => calcHashAux 0 xs
  | .obj fs => hashString (jsonStringify (.obj fs))
  | .date iso => hashString (jsonStringify (.date iso))
termination_by structural v => v

/-- `calculateHash(values)`'s `reduce` loop: fold the rolling-hash step
over the hash of each element. -/
def calcHashAux (hash : Int) : PrimList → Int
  | .nil => hash
  | .cons v vs => calcHashAux (hashStep hash (hashValue v)) vs
termination_by structural vs => vs
end

/-- `calculateHash(values)` with its initial accumulator 0. -/
def calculateHash (values : PrimList) : Int :=
  calcHashAux 0 values

/-- A concrete `PrimitiveValueObject` instance: its runtime constructor
(`this.constructor`, compared by `equals`) and the ordered list its
`getPrimitiveValues()` returns. -/
structure PVO where
  ctor : String
  prims : PrimList

/-- `PrimitiveValueObject.equals(other)`: same concrete constructor,
same component count, then the element-wise comparison loop. -/
def voEquals (a b : PVO) : Bool :=
  a.ctor == b.ctor &&
    (a.prims.length == b.prims.length && pairwiseEq a.prims b.prims)

/-- `PrimitiveValueObject.hashCode()`:
`calculateHash(this.getPrimitiveValues())`. -/
def voHash (a : PVO) : Int :=
  calculateHash a.prims

/-- No duplicates in a key list (well-formedness of object literals,
which JavaScript guarantees). -/
def nodupKeys : List String → Bool
  | [] => true
  | k :: ks => !ks.contains k && nodupKeys ks

mutual
/-- Well-formed embedded value: every object in it has pairwise
distinct keys (always true of real JavaScript objects). -/
def primWF : Prim → Bool
  | .arr xs => primListWF xs
  | .obj fs => nodupKeys fs.keys && fieldsWF fs
  | _ => true
termination_by structural v => v

def primListWF : PrimList → Bool
  | .nil => true
  | .cons x xs => primWF x && primListWF xs
termination_by structural xs => xs

def fieldsWF : FieldList → Bool
  | .nil => true
  | .cons _ v rest => primWF v && fieldsWF rest
termination_by structural fs => fs
end


/-!  Supporting concrete instances and auxiliary definitions used by the
verification below. -/

/-- A key/value pair occurring in an embedded object's field list. -/
inductive PairIn (k : String) (x : Prim) : FieldList → Prop where
  | head (t : FieldList) : PairIn k x (.cons k x t)
  | tail (k' : String) (x' : Prim) (t : FieldList) :
      PairIn k x t → PairIn k x (.cons k' x' t)

/-- A concrete optimistic-lock aggregate at version 1, used to evaluate
`checkVersion` at a mismatching expected version. -/
def employeeAggregate : AggregateRoot String :=
  { id := "emp-1", createdAt := 0, updatedAt := 0, version := 1, domainEventsRef := 0 }

/-- A syntactically valid RFC-4122 UUID whose version nibble is `1`,
not `4`. -/
def nonV4Uuid : String := "aaaaaaaa-aaaa-1aaa-8aaa-aaaaaaaaaaaa"

/-- First C1 counterexample value object: one plain-object component
with keys inserted in the order `a`, `b`. -/
def pvoKeyOrderA : PVO :=
  ⟨"SettingsVo", .cons (.obj (.cons "a" (.num 1) (.cons "b" (.num 2) .nil))) .nil⟩

/-- Second C1 counterexample value object: the same key/value pairs
inserted in the order `b`, `a`. -/
def pvoKeyOrderB : PVO :=
  ⟨"SettingsVo", .cons (.obj (.cons "b" (.num 2) (.cons "a" (.num 1) .nil))) .nil⟩

/-- A component list exercising strings, numbers, booleans, a `Date`,
a nested array and a nested plain object. -/
def samplePrims : PrimList :=
  .cons (.str "ab") (.cons (.num 42) (.cons (.bool true)
    (.cons (.date "2024-01-15T00:00:00.000Z")
      (.cons (.arr (.cons (.num 1) (.cons (.str "x") .nil)))
        (.cons (.obj (.cons "k" (.num 7) (.cons "m" .null .nil))) .nil)))))

/-!  Helper lemmas. -/

/-- An element of a list of strings is a contiguous substring of their
JavaScript `join`. -/
theorem mem_jsJoin_infix (sep x : String) (l : List String) (hx : x ∈ l) :
    x.data <:+: (jsJoin sep l).data := by
  induction l with
  | nil => cases hx
  | cons y t ih =>
    cases t with
    | nil =>
      have hxy : x = y := by simpa using hx
      subst hxy
      simp [jsJoin]
    | cons z t' =>
      rcases List.mem_cons.mp hx with hxy | hmem
      · subst hxy
        show x.data <:+: (x ++ sep ++ jsJoin sep (z :: t')).data
        simp only [String.data_append, List.append_assoc]
        exact (List.prefix_append _ _).isInfix
      · have hsub := ih hmem
        have hsuf : (jsJoin sep (z :: t')).data <:+:
            (y ++ sep ++ jsJoin sep (z :: t')).data := by
          simp only [String.data_append]
          exact (List.suffix_append _ _).isInfix
        exact hsub.trans hsuf

/-- The error-collecting fold of `Result.combine`, related to
`filterMap`. -/
theorem combine_errors_eq {T : Type} (rs : List (Result T JsError))
    (acc : List JsError) :
    rs.foldl (fun acc r => match r with
      | .failure e => acc ++ [e]
      | .success _ => acc) acc =
      acc ++ rs.filterMap (fun r => match r with
        | .failure e => Option.some e
        | .success _ => Option.none) := by
  induction rs generalizing acc with
  | nil => simp
  | cons r rs ih =>
    cases r with
    | success v => simpa using ih acc
    | failure e => simp [ih]

/-- A pair occurring in a field list puts its key among the object's
keys. -/
theorem keys_contains_of_pairIn {k : String} {x : Prim} {fs : FieldList}
    (hp : PairIn k x fs) : fs.keys.contains k = true := by
  induction hp with
  | head t => simp [FieldList.keys]
  | tail k' x' t hp ih =>
    simp only [FieldList.keys, List.contains_cons, Bool.or_eq_true]
    exact Or.inr ih

/-- Under distinct keys, lookup of an occurring pair's key returns that
pair's value. -/
theorem lookup_of_pairIn_nodup {k : String} {x : Prim} {fs : FieldList}
    (hp : PairIn k x fs) (hnd : nodupKeys fs.keys = true) :
    fs.lookup k = Option.some x := by
  induction hp with
  | head t => simp [FieldList.lookup]
  | tail k' x' t hp ih =>
    have hnd' : t.keys.contains k' = false ∧ nodupKeys t.keys = true := by
      simpa [FieldList.keys, nodupKeys, Bool.and_eq_true] using hnd
    have hkne : (k == k') = false := by
      refine beq_eq_false_iff_ne.mpr ?_
      intro hkk
      subst hkk
      rw [keys_contains_of_pairIn hp] at hnd'
      exact Bool.true_eq_false ▸ hnd'.1.symm ▸ rfl
    simp [FieldList.lookup, hkne, ih hnd'.2]

mutual
/-- The shared element-comparison logic of
`PrimitiveValueObject.equals` is reflexive on well-formed values. -/
theorem primEq_refl : ∀ (v : Prim), primWF v = true → primEq v v = true
  | .null, _ => by simp [primEq, strictEq]
  | .undef, _ => by simp [primEq, strictEq]
  | .str s, _ => by simp [primEq, strictEq]
  | .num n, _ => by simp [primEq, strictEq]
  | .bool b, _ => by simp [primEq, strictEq]
  | .date iso, _ => by simp [primEq, typeofIsObject, isNullPrim, jsKeysLen]
  | .arr xs, h => by
    have hxs : primListWF xs = true := by simpa [primWF] using h
    simp [primEq, pairwiseEq_refl xs hxs]
  | .obj fs, h => by
    have h' : nodupKeys fs.keys = true ∧ fieldsWF fs = true := by
      simpa [primWF, Bool.and_eq_true] using h
    have hfe : fieldsEq fs (.obj fs) = true :=
      fieldsEq_of_jsIndex fs (.obj fs)
        (fun k x hp => by simp [jsIndex, lookup_of_pairIn_nodup hp h'.1])
        h'.2
    simp [primEq, typeofIsObject, isNullPrim, jsKeysLen, hfe]
termination_by structural v _ => v

/-- `arraysEqual`'s element loop is reflexive on well-formed lists. -/
theorem pairwiseEq_refl : ∀ (xs : PrimList), primListWF xs = true →
    pairwiseEq xs xs = true
  | .nil, _ => by simp [pairwiseEq]
  | .cons x xs, h => by
    have h' : primWF x = true ∧ primListWF xs = true := by
      simpa [primListWF, Bool.and_eq_true] using h
    simp [pairwiseEq, primEq_refl x h'.1, pairwiseEq_refl xs h'.2]
termination_by structural xs _ => xs

/-- `objectsEqual`'s key loop succeeds whenever the right-hand side
yields the matching value for every key of the left-hand side. -/
theorem fieldsEq_of_jsIndex : ∀ (fs : FieldList) (w : Prim),
    (∀ k x, PairIn k x fs → jsIndex w k = x) → fieldsWF fs = true →
    fieldsEq fs w = true
  | .nil, _, _, _ => by simp [fieldsEq]
  | .cons k x rest, w, hidx, hwf => by
    have h' : primWF x = true ∧ fieldsWF rest = true := by
      simpa [fieldsWF, Bool.and_eq_true] using hwf
    have hx : jsIndex w k = x := hidx k x (.head rest)
    have h1 : primEq x (jsIndex w k) = true := by
      rw [hx]
      exact primEq_refl x h'.1
    have h2 : fieldsEq rest w = true :=
      fieldsEq_of_jsIndex rest w
        (fun k' x' hp => hidx k' x' (.tail k x rest hp)) h'.2
    simp [fieldsEq, h1, h2]
termination_by structural fs _ _ _ => fs
end

/-!  The claims. -/

set_option maxRecDepth 8000 in
/-- Claim C1, counterexample: two value objects of the same concrete
type whose single component is the same plain object with keys in
different insertion order satisfy `equals` (the per-key comparison is
insertion-order-insensitive) yet have different hash codes (object
components are hashed through `JSON.stringify`, which preserves
insertion order), refuting `a.equals(b) ⇒ a.hashCode() === b.hashCode()`
as a universal law. -/
theorem c1_counterexample :
    voEquals pvoKeyOrderA pvoKeyOrderB = true ∧
    voHash pvoKeyOrderA ≠ voHash pvoKeyOrderB := by
  constructor
  · decide
  · decide

/-- Claim C1, amended: for two value-object instances of the same
concrete type with identical `getPrimitiveValues()` lists (including
nested arrays, plain objects with distinct keys, and Date components),
`equals` returns `true`, and the hash codes — functions of that list
alone — coincide.  The stronger claim that any `equals`-equal pair has
equal hash codes is refuted by `c1_counterexample`. -/
theorem c1_amended (c : String) (v : PrimList) (hWF : primListWF v = true) :
    voEquals ⟨c, v⟩ ⟨c, v⟩ = true ∧ voHash ⟨c, v⟩ = voHash ⟨c, v⟩ := by
  refine ⟨?_, rfl⟩
  simp [voEquals, pairwiseEq_refl v hWF]

/-- Witness for `c1_amended` at a component list containing a string, a
number, a boolean, a Date, a nested array, and a nested plain object. -/
theorem c1_amended_witness :
    primListWF samplePrims = true ∧
    voEquals ⟨"AddressVo", samplePrims⟩ ⟨"AddressVo", samplePrims⟩ = true :=
  ⟨by decide, (c1_amended "AddressVo" samplePrims (by decide)).1⟩

/-- Claim C2: for each of `Result.map`, `Either.map` and `Maybe.map`,
applying to a success/right/some with a function that throws `e` yields
the failure/left/none state without propagating the exception (`Result`
and `Either` carry the thrown value; `Maybe`'s `none` has no payload
slot and the catch arm discards `e`), and applying to a
failure/left/none instance leaves that state unchanged. -/
theorem c2_map_exception_to_failure {α β ε : Type} (v : α)
    (fn : α → Except ε β) (e : ε) (h : fn v = .error e)
    (e0 : ε) (fn2 : α → Except ε β) :
    Result.map (.success v) fn = (.failure e : Result β ε) ∧
    Result.map (.failure e0) fn2 = (.failure e0 : Result β ε) ∧
    Either.map (.right v) fn = (.left e : Either ε β) ∧
    Either.map (.left e0) fn2 = (.left e0 : Either ε β) ∧
    Maybe.map (.some v) fn = (.none : Maybe β) ∧
    Maybe.map (.none : Maybe α) fn2 = (.none : Maybe β) := by
  refine ⟨?_, rfl, ?_, rfl, ?_, rfl⟩ <;> simp [Result.map, Either.map, Maybe.map, h]

/-- Witness for `c2_map_exception_to_failure`: a function that throws
`"boom"` at 7 collapses `Result.success 7` to `Result.failure "boom"`. -/
theorem c2_witness :
    (fun _ : Nat => (Except.error "boom" : Except String Nat)) 7 = .error "boom" ∧
    Result.map (.success 7) (fun _ : Nat => (Except.error "boom" : Except String Nat)) =
      (.failure "boom" : Result Nat String) := by
  exact ⟨rfl, (c2_map_exception_to_failure 7 _ "boom" rfl "e0" (fun n => .ok n)).1⟩

/-- Claim C3: if at least one element of the list is a failure,
`Result.combine` yields a failure whose message contains the message of
every failing element as a contiguous substring (the `', '`-join of all
collected failure messages); if every element is a success, it yields a
success. -/
theorem c3_combine_collects_all_errors {T : Type}
    (results : List (Result T JsError)) :
    ((∃ r ∈ results, r.isFailure = true) →
      ∃ f : JsError, Result.combine results = .failure f ∧
        ∀ e : JsError, (Result.failure e : Result T JsError) ∈ results →
          e.message.data <:+: f.message.data) ∧
    ((∀ r ∈ results, r.isSuccess = true) →
      ∃ vs, Result.combine results = .success vs) := by
  have herrs := combine_errors_eq results []
  set errs := results.filterMap (fun r => match r with
    | .failure e => Option.some e
    | .success _ => Option.none) with herrsdef
  constructor
  · rintro ⟨r, hr, hrf⟩
    obtain ⟨e0, he0⟩ : ∃ e0, r = .failure e0 := by
      cases r with
      | success v => simp [Result.isFailure] at hrf
      | failure e => exact ⟨e, rfl⟩
    have he0mem : e0 ∈ errs := by
      rw [herrsdef]
      exact List.mem_filterMap.mpr ⟨r, hr, by rw [he0]⟩
    have hlen : errs.length > 0 := List.length_pos.mpr
      (by rintro hnil; rw [hnil] at he0mem; cases he0mem)
    refine ⟨⟨jsJoin ", " (errs.map JsError.message)⟩, ?_, ?_⟩
    · simp only [Result.combine, herrs, List.nil_append, herrsdef]
      rw [if_pos (by simpa [herrsdef] using hlen)]
    · intro e hemem
      have : e ∈ errs := by
        rw [herrsdef]
        exact List.mem_filterMap.mpr ⟨.failure e, hemem, rfl⟩
      exact mem_jsJoin_infix _ _ _ (List.mem_map_of_mem JsError.message this)
  · intro hall
    have hnil : errs = [] := by
      rw [herrsdef]
      refine List.filterMap_eq_nil_iff.mpr ?_
      intro r hr
      have := hall r hr
      cases r with
      | success v => rfl
      | failure e => simp [Result.isSuccess] at this
    refine ⟨results.filterMap (fun r => match r with
      | .success v => Option.some v
      | .failure _ => Option.none), ?_⟩
    simp only [Result.combine, herrs, List.nil_append, herrsdef.symm, hnil]
    rfl

/-- Witness for `c3_combine_collects_all_errors` on the spec's scenario
`[success 1, failure e1, success 3, failure e2]`. -/
theorem c3_witness :
    (∃ r ∈ ([.success 1, .failure ⟨"e1 msg"⟩, .success 3, .failure ⟨"e2 msg"⟩] :
        List (Result Int JsError)), r.isFailure = true) ∧
    (∃ f : JsError,
      Result.combine ([.success 1, .failure ⟨"e1 msg"⟩, .success 3,
          .failure ⟨"e2 msg"⟩] : List (Result Int JsError)) = .failure f ∧
      ∀ e : JsError, (Result.failure e : Result Int JsError) ∈
          ([.success 1, .failure ⟨"e1 msg"⟩, .success 3, .failure ⟨"e2 msg"⟩] :
            List (Result Int JsError)) →
        e.message.data <:+: f.message.data) := by
  refine ⟨⟨.failure ⟨"e1 msg"⟩, by simp, rfl⟩, ?_⟩
  exact (c3_combine_collects_all_errors _).1 ⟨.failure ⟨"e1 msg"⟩, by simp, rfl⟩

/-- Claim C4: `n` calls to `incrementVersion` (with arbitrary `touch`
timestamps) raise the version by exactly `n`; `markEventsAsCommitted`
leaves `getUncommittedEvents` returning the empty list, clears the
buffer in one operation, and a second call changes nothing. -/
theorem c4_version_and_commit {TId : Type} (a : AggregateRoot TId)
    (times : List Int) (h : ArrayHeap) :
    (times.foldl AggregateRoot.incrementVersion a).version =
      a.version + times.length ∧
    (let h1 := a.markEventsAsCommitted h
     let copy := a.getUncommittedEvents h1
     copy.1.read copy.2 = []) ∧
    (a.markEventsAsCommitted h).read a.domainEventsRef = [] ∧
    AggregateRoot.markEventsAsCommitted (a.markEventsAsCommitted h) a =
      a.markEventsAsCommitted h := by
  refine ⟨?_, ?_, ?_, ?_⟩
  · induction times generalizing a with
    | nil => simp
    | cons t ts ih =>
      simp [List.foldl_cons, ih, AggregateRoot.incrementVersion, AggregateRoot.touch]
      ring
  · have hread : ∀ (st : List (List DomainEvent)) (r : Nat),
        ((st.set r [])[r]?).getD [] = [] := by
      intro st r
      rcases Nat.lt_or_ge r st.length with hlt | hge
      · simp [List.getElem?_set_self, hlt]
      · rw [List.getElem?_eq_none (by simpa using hge)]
        rfl
    simp [AggregateRoot.markEventsAsCommitted, AggregateRoot.getUncommittedEvents,
      ArrayHeap.mutate, ArrayHeap.alloc, ArrayHeap.read, hread]
  · have hread : ∀ (st : List (List DomainEvent)) (r : Nat),
        ((st.set r [])[r]?).getD [] = [] := by
      intro st r
      rcases Nat.lt_or_ge r st.length with hlt | hge
      · simp [List.getElem?_set_self, hlt]
      · rw [List.getElem?_eq_none (by simpa using hge)]
        rfl
    simp [AggregateRoot.markEventsAsCommitted, ArrayHeap.mutate, ArrayHeap.read, hread]
  · simp [AggregateRoot.markEventsAsCommitted, ArrayHeap.mutate, ArrayHeap.read,
      List.set_set]

/-- Claim C5, code evaluation: `checkVersion(expected)` returns normally
exactly when `expected` equals the current version; at the failing input
(version 1, expected 2) it raises a direct instance of the abstract
`DomainError` base — whose `code` is undefined and which is not the
`ConcurrencyError` subclass (`code` `CONCURRENCY_ERROR`) that the
claim names. -/
theorem c5_checkVersion_code_eval :
    (∀ expected : Int,
      employeeAggregate.checkVersion expected = .ok () ↔ expected = 1) ∧
    employeeAggregate.checkVersion 2 =
      .error (.base "Concurrency conflict. Expected version 2, but got 1") ∧
    (DomainErrorValue.base
        "Concurrency conflict. Expected version 2, but got 1").isConcurrencyError
      = false ∧
    (DomainErrorValue.base
        "Concurrency conflict. Expected version 2, but got 1").code = Option.none ∧
    (DomainErrorValue.concurrency "Employee" "emp-1" 2 1).code =
      Option.some "CONCURRENCY_ERROR" := by
  refine ⟨?_, by rfl, rfl, rfl, rfl⟩
  intro expected
  constructor
  · intro hok
    by_contra hne
    simp [AggregateRoot.checkVersion, employeeAggregate, Ne.symm hne] at hok
  · intro he
    subst he
    rfl

/-- Claim C6, counterexample: the string
`aaaaaaaa-aaaa-1aaa-8aaa-aaaaaaaaaaaa` — version nibble `1`, hence not
an RFC-4122 version-4 UUID — is accepted by the `UuidId` constructor,
refuting both directions of the claim's v4-pattern characterisation. -/
theorem c6_counterexample :
    UuidId.make nonV4Uuid = .ok nonV4Uuid ∧
    specV4UuidPattern nonV4Uuid = false :=
  ⟨rfl, by decide⟩

/-- Claim C6, amended: a `UuidId` constructs successfully exactly when
the value matches the case-insensitive RFC-4122 pattern with version
digit 1-5 and variant `[89ab]` (not the version-4 pattern alone), and
every rejection raises a `ValidationError`. -/
theorem c6_amended (s : String) :
    (UuidId.make s = .ok s ↔ uuidRegexTest s = true) ∧
    (∀ e, UuidId.make s = .error e →
      e = .validation "UUID must be a non-empty string" "id" ∨
      e = .validation "Invalid UUID format" "id") := by
  by_cases h0 : s = ""
  · subst h0
    refine ⟨?_, ?_⟩
    · simp [UuidId.make]
      decide
    · intro e he
      simp [UuidId.make] at he
      exact Or.inl he.symm
  · have hb : (s == "") = false := by simpa using h0
    by_cases hr : uuidRegexTest s = true
    · refine ⟨by simp [UuidId.make, hb, hr], ?_⟩
      intro e he
      simp [UuidId.make, hb, hr] at he
    · have hr' : uuidRegexTest s = false := by simpa using hr
      refine ⟨by simp [UuidId.make, hb, hr'], ?_⟩
      intro e he
      simp [UuidId.make, hb, hr'] at he
      exact Or.inr he.symm

/-- Witness for `c6_amended` at a well-formed version-4 UUID string. -/
theorem c6_amended_witness :
    (UuidId.make "aaaaaaaa-aaaa-4aaa-baaa-aaaaaaaaaaaa" =
        .ok "aaaaaaaa-aaaa-4aaa-baaa-aaaaaaaaaaaa" ↔
      uuidRegexTest "aaaaaaaa-aaaa-4aaa-baaa-aaaaaaaaaaaa" = true) ∧
    (∀ e, UuidId.make "aaaaaaaa-aaaa-4aaa-baaa-aaaaaaaaaaaa" = .error e →
      e = .validation "UUID must be a non-empty string" "id" ∨
      e = .validation "Invalid UUID format" "id") :=
  c6_amended "aaaaaaaa-aaaa-4aaa-baaa-aaaaaaaaaaaa"

/-- Claim C7: for a non-empty builder, `build()` behaves as the
left-to-right AND of its specifications and `buildOr()` as their OR,
for every candidate; an empty builder's `build()`/`buildOr()` yield the
always-true specification. -/
theorem c7_builder_and_or {T : Type} (specs : List (Spec T)) (c : T)
    (hne : specs ≠ []) :
    (SpecificationBuilder.build specs).isSatisfiedBy c =
      specs.all (fun s => s.isSatisfiedBy c) ∧
    (SpecificationBuilder.buildOr specs).isSatisfiedBy c =
      specs.any (fun s => s.isSatisfiedBy c) ∧
    (SpecificationBuilder.build ([] : List (Spec T))).isSatisfiedBy c = true ∧
    (SpecificationBuilder.buildOr ([] : List (Spec T))).isSatisfiedBy c = true ∧
    SpecificationBuilder.build ([] : List (Spec T)) = .trueS ∧
    SpecificationBuilder.buildOr ([] : List (Spec T)) = .trueS := by
  have hand : ∀ (rest : List (Spec T)) (acc : Spec T),
      (rest.foldl Spec.andS acc).isSatisfiedBy c =
        (acc.isSatisfiedBy c && rest.all (fun s => s.isSatisfiedBy c)) := by
    intro rest
    induction rest with
    | nil => intro acc; simp
    | cons s rest ih =>
      intro acc
      simp [List.foldl_cons, ih, Spec.isSatisfiedBy, Bool.and_assoc]
  have hor : ∀ (rest : List (Spec T)) (acc : Spec T),
      (rest.foldl Spec.orS acc).isSatisfiedBy c =
        (acc.isSatisfiedBy c || rest.any (fun s => s.isSatisfiedBy c)) := by
    intro rest
    induction rest with
    | nil => intro acc; simp
    | cons s rest ih =>
      intro acc
      simp [List.foldl_cons, ih, Spec.isSatisfiedBy, Bool.or_assoc]
  refine ⟨?_, ?_, rfl, rfl, rfl, rfl⟩
  · cases specs with
    | nil => simp [SpecificationBuilder.build, Spec.isSatisfiedBy]
    | cons s rest =>
      cases rest with
      | nil => simp [SpecificationBuilder.build]
      | cons s' rest' =>
        simp [SpecificationBuilder.build, hand, Spec.isSatisfiedBy, Bool.and_assoc]
  · cases specs with
    | nil => exact absurd rfl hne
    | cons s rest =>
      cases rest with
      | nil => simp [SpecificationBuilder.buildOr]
      | cons s' rest' =>
        simp [SpecificationBuilder.buildOr, hor, Spec.isSatisfiedBy, Bool.or_assoc]

/-- Witness for `c7_builder_and_or` with two property-style conditions
over natural-number candidates. -/
theorem c7_witness :
    (([Spec.func (fun n : Nat => n > 2), Spec.func (fun n : Nat => n % 2 == 0)] :
        List (Spec Nat)) ≠ []) ∧
    (SpecificationBuilder.build
        [Spec.func (fun n : Nat => n > 2), Spec.func (fun n : Nat => n % 2 == 0)]).isSatisfiedBy 4 =
      ([Spec.func (fun n : Nat => n > 2), Spec.func (fun n : Nat => n % 2 == 0)] :
        List (Spec Nat)).all (fun s => s.isSatisfiedBy 4) := by
  refine ⟨by simp, ?_⟩
  exact (c7_builder_and_or _ 4 (by simp)).1

/-- Claim C8: `Result.flatMap` satisfies the right-identity and
associativity monad laws up to equality of state tag and
payload/error. -/
theorem c8_flatMap_monad_laws {α β γ ε : Type} (r : Result α ε)
    (f : α → Result β ε) (g : β → Result γ ε) :
    r.flatMap Result.success = r ∧
    (r.flatMap f).flatMap g = r.flatMap fun x => (f x).flatMap g := by
  cases r <;> simp [Result.flatMap]

/-- Claim C9: `publish` invokes, in registration order, exactly the
handlers registered for the event's runtime type name, returning
normally even when handlers throw (each invocation is wrapped in the
catching loop body, so one throwing handler never prevents the
remaining ones); `subscribe` appends to the per-type registration
list. -/
theorem c9_publish_invokes_all {ε : Type} (bus : Bus ε) (event : DomainEvent)
    (name : String) (h : Handler ε) :
    DomainEventBus.publish bus event =
      .ok (DomainEventBus.handlersFor bus event.ctorName) ∧
    DomainEventBus.handlersFor (DomainEventBus.subscribe bus name h) name =
      DomainEventBus.handlersFor bus name ++ [h] := by
  constructor
  · unfold DomainEventBus.publish
    generalize DomainEventBus.handlersFor bus event.ctorName = hs
    induction hs with
    | nil => rfl
    | cons hd tl ih =>
      cases hh : hd.handle event <;>
          simp [DomainEventBus.publishLoop, DomainEventBus.handleWithCatch, hh, ih] <;>
        rfl
  · induction bus with
    | nil =>
      simp [DomainEventBus.subscribe, DomainEventBus.handlersFor, List.lookup]
    | cons p rest ih =>
      obtain ⟨k, hs⟩ := p
      by_cases hk : k = name
      · subst hk
        simp [DomainEventBus.subscribe, DomainEventBus.handlersFor, List.lookup]
      · have hk1 : (k == name) = false := by simpa using hk
        have hk2 : (name == k) = false := by simpa using Ne.symm hk
        simpa [DomainEventBus.subscribe, DomainEventBus.handlersFor, List.lookup,
          hk1, hk2] using ih

/-- Claim C10: `getUncommittedEvents` allocates a fresh array that
copies the buffer's contents; mutating the returned array in any way
leaves the aggregate's internal buffer — and therefore
`hasUncommittedEvents`, `getUncommittedEventsCount` and later
`getUncommittedEvents` calls — unchanged. -/
theorem c10_defensive_copy {TId : Type} (h : ArrayHeap) (a : AggregateRoot TId)
    (hv : a.domainEventsRef < h.store.length)
    (f : List DomainEvent → List DomainEvent) :
    (a.getUncommittedEvents h).2 ≠ a.domainEventsRef ∧
    (a.getUncommittedEvents h).1.read (a.getUncommittedEvents h).2 =
      h.read a.domainEventsRef ∧
    ((a.getUncommittedEvents h).1.mutate (a.getUncommittedEvents h).2 f).read
        a.domainEventsRef = h.read a.domainEventsRef ∧
    AggregateRoot.hasUncommittedEvents
        ((a.getUncommittedEvents h).1.mutate (a.getUncommittedEvents h).2 f) a =
      a.hasUncommittedEvents h ∧
    AggregateRoot.getUncommittedEventsCount
        ((a.getUncommittedEvents h).1.mutate (a.getUncommittedEvents h).2 f) a =
      a.getUncommittedEventsCount h ∧
    (AggregateRoot.getUncommittedEvents
          ((a.getUncommittedEvents h).1.mutate (a.getUncommittedEvents h).2 f) a).1.read
        (AggregateRoot.getUncommittedEvents
          ((a.getUncommittedEvents h).1.mutate (a.getUncommittedEvents h).2 f) a).2 =
      h.read a.domainEventsRef := by
  have hne : h.store.length ≠ a.domainEventsRef := (Nat.ne_of_lt hv).symm
  have hcopy : (a.getUncommittedEvents h).1.read (a.getUncommittedEvents h).2 =
      h.read a.domainEventsRef := by
    simp [AggregateRoot.getUncommittedEvents, ArrayHeap.alloc, ArrayHeap.read,
      List.getD_eq_getElem?_getD, List.getElem?_concat_length]
  have hframe : ((a.getUncommittedEvents h).1.mutate
      (a.getUncommittedEvents h).2 f).read a.domainEventsRef =
      h.read a.domainEventsRef := by
    simp only [AggregateRoot.getUncommittedEvents, ArrayHeap.alloc, ArrayHeap.mutate,
      ArrayHeap.read, List.getD_eq_getElem?_getD]
    rw [List.getElem?_set_ne hne, List.getElem?_append_left hv]
  refine ⟨Nat.ne_of_gt hv, hcopy, hframe, ?_, ?_, ?_⟩
  · simp [AggregateRoot.hasUncommittedEvents, hframe]
  · simp [AggregateRoot.getUncommittedEventsCount, hframe]
  · have : ∀ (h2 : ArrayHeap),
        (a.getUncommittedEvents h2).1.read (a.getUncommittedEvents h2).2 =
          h2.read a.domainEventsRef := by
      intro h2
      simp [AggregateRoot.getUncommittedEvents, ArrayHeap.alloc, ArrayHeap.read,
        List.getD_eq_getElem?_getD, List.getElem?_concat_length]
    rw [this, hframe]

/-- Witness for `c10_defensive_copy` on a one-aggregate heap holding a
single uncommitted event. -/
theorem c10_witness :
    (0 : Nat) < (ArrayHeap.mk
        [[{ eventId := "e-1", occurredOn := 0, eventType := "EmployeeCreatedEvent",
            aggregateId := "emp-1", version := 1,
            ctorName := "EmployeeCreatedEvent" }]]).store.length ∧
    ((AggregateRoot.mk "emp-1" 0 0 1 0 : AggregateRoot String).getUncommittedEvents
        (ArrayHeap.mk
          [[{ eventId := "e-1", occurredOn := 0, eventType := "EmployeeCreatedEvent",
              aggregateId := "emp-1", version := 1,
              ctorName := "EmployeeCreatedEvent" }]])).2 ≠
      (AggregateRoot.mk "emp-1" 0 0 1 0 : AggregateRoot String).domainEventsRef := by
  constructor
  · decide
  · exact (c10_defensive_copy _ _ (by decide) (fun l => [])).1

end TG
